import Mathlib

/-!
Verification of the cel-lua FFI layer (src/ffi/mod.rs, src/ffi/context.rs,
src/ffi/program.rs) against its natural-language specification.

The Rust sources are shallowly embedded: machine integers become `Nat`/`Int`
with explicit `% 2^64` where wrap-around matters, raw pointers become `Nat`
addresses, the process-wide string allocations become an explicit association
list (the "heap"), fallible paths become `Option`/`Except`, and a Rust panic
or undefined behaviour is modelled as `Option.none`.  The external expression
engine (the `cel_interpreter` crate) is out of scope for the spec, so its
compiler and evaluator enter the model as oracle function parameters.
-/

set_option maxRecDepth 10000

/-- Model of a finite `f64` double as a rational, plus the three non-finite
shapes relevant to `serde_json::Number::from_f64` (which accepts exactly the
finite doubles).  Every finite double is a rational number, and no claim in
scope performs float arithmetic, so this embedding is exact for the paths
under study. -/
inductive F64 where
  | finite (q : ℚ)
  | nan
  | inf
  | negInf
deriving DecidableEq

/-- Rust `Display` of the modelled double: `f64` prints `NaN`, `inf`, `-inf`
for the non-finite shapes.  The finite case is never formatted on any error
path in the sources (`from_f64` succeeds on finite input), so its exact digit
string is irrelevant; we print the rational. -/
def fmtF64 : F64 → String
  | .finite q => toString q
  | .nan => "NaN"
  | .inf => "inf"
  | .negInf => "-inf"

/-- Model of `serde_json::Number`: serde stores a positive integer (`u64`),
a negative integer (`i64`), or a finite double. -/
inductive JNumber where
  | posInt (n : Nat)
  | negInt (i : Int)
  | float (q : ℚ)
deriving DecidableEq

/-- Model of `serde_json::Number::from::<i64>`: negative values become
`NegInt`, non-negative become `PosInt`. -/
def numberFromI64 (i : Int) : JNumber :=
  if i < 0 then .negInt i else .posInt i.toNat

/-- Model of `serde_json::Number::from_f64`: succeeds exactly on finite
doubles. -/
def numberFromF64 : F64 → Option JNumber
  | .finite q => some (.float q)
  | _ => none

/-- Model of `serde_json::Number::as_i64`: a `PosInt` fits iff it is at most
`i64::MAX`; a `NegInt` always fits; a float never does. -/
def JNumber.as_i64 : JNumber → Option Int
  | .posInt n => if n ≤ 2 ^ 63 - 1 then some (n : Int) else none
  | .negInt i => some i
  | .float _ => none

/-- Model of `serde_json::Number::as_u64`. -/
def JNumber.as_u64 : JNumber → Option Nat
  | .posInt n => some n
  | _ => none

/-- Model of `serde_json::Number::as_f64` restricted to the float case; the
integer cases are never reached through this accessor in the sources (their
`as_i64` / `as_u64` accessors are consulted first). -/
def JNumber.as_f64 : JNumber → Option ℚ
  | .float q => some q
  | _ => none

mutual
/-- Model of `serde_json::Value`, the generic JSON-like value stored in a
`Context`.  Arrays and objects are given their own spine types so that all
recursion over them is structural. -/
inductive JValue where
  | null
  | bool (b : Bool)
  | num (n : JNumber)
  | str (s : String)
  | arr (xs : JArr)
  | obj (kvs : JObj)
deriving DecidableEq

/-- Spine of a JSON array (`Vec<serde_json::Value>`). -/
inductive JArr where
  | nil
  | cons (hd : JValue) (tl : JArr)
deriving DecidableEq

/-- Spine of a JSON object (`serde_json::Map<String, Value>`). -/
inductive JObj where
  | nil
  | cons (k : String) (v : JValue) (tl : JObj)
deriving DecidableEq
end

/-- Model of the C tagged union `CelValue` (src/ffi/mod.rs).  The payload is
interpreted strictly according to the tag, so the embedding uses a sum type;
the `string` payload carries the bytes the `{ptr, len}` descriptor points to,
which is exactly what the marshaling code reads through it. -/
inductive CelValue where
  | null
  | bool (b : Bool)
  | int (i : Int)
  | uint (u : Nat)
  | double (f : F64)
  | string (bytes : List Nat)
  | bytes (bs : List Nat)
  | list
  | map
  | type
deriving DecidableEq

/-- Model of the engine's native value type `cel_interpreter::Value` as far
as the FFI layer inspects it; all remaining engine variants are collapsed
into `other`, matching the catch-all `_` arm of `cel_value_to_c_value`. -/
inductive CelRustValue where
  | null
  | bool (b : Bool)
  | int (i : Int)
  | uint (u : Nat)
  | float (f : F64)
  | string (s : String)
  | list (xs : List CelRustValue)
  | map (kvs : List (String × CelRustValue))
  | other

/-! ## UTF-8 encoding and decoding

`CStr::to_str` and `std::str::from_utf8` validate strict UTF-8 (no overlong
forms, no surrogates, maximum U+10FFFF); `utf8Decode` mirrors that check
byte for byte. -/

/-- True for a UTF-8 continuation byte `0x80..=0xBF`. -/
def contByte (b : Nat) : Bool := 0x80 ≤ b && b < 0xC0

/-- Strict UTF-8 decoder over a byte list, mirroring the validation performed
by `std::str::from_utf8` / `CStr::to_str`: rejects lone continuation bytes,
overlong encodings (leads `0xC0`/`0xC1`, `0xE0` with second byte < `0xA0`,
`0xF0` with second byte < `0x90`), surrogates (`0xED` with second byte
≥ `0xA0`), code points above U+10FFFF (`0xF4` with second byte ≥ `0x90`,
leads ≥ `0xF5`) and truncated sequences. -/
def utf8Decode : List Nat → Option (List Char)
  | [] => some []
  | b :: rest =>
    if b < 0x80 then
      (utf8Decode rest).map (fun cs => Char.ofNat b :: cs)
    else if b < 0xC2 then none
    else if b < 0xE0 then
      match rest with
      | b1 :: rest1 =>
        if contByte b1 then
          (utf8Decode rest1).map (fun cs =>
            Char.ofNat ((b - 0xC0) * 0x40 + (b1 - 0x80)) :: cs)
        else none
      | [] => none
    else if b < 0xF0 then
      match rest with
      | b1 :: b2 :: rest2 =>
        if (if b = 0xE0 then decide (0xA0 ≤ b1) && decide (b1 < 0xC0)
            else if b = 0xED then decide (0x80 ≤ b1) && decide (b1 < 0xA0)
            else contByte b1) && contByte b2 then
          (utf8Decode rest2).map (fun cs =>
            Char.ofNat ((b - 0xE0) * 0x1000 + (b1 - 0x80) * 0x40 + (b2 - 0x80)) :: cs)
        else none
      | _ => none
    else if b < 0xF5 then
      match rest with
      | b1 :: b2 :: b3 :: rest3 =>
        if (if b = 0xF0 then decide (0x90 ≤ b1) && decide (b1 < 0xC0)
            else if b = 0xF4 then decide (0x80 ≤ b1) && decide (b1 < 0x90)
            else contByte b1) && contByte b2 && contByte b3 then
          (utf8Decode rest3).map (fun cs =>
            Char.ofNat ((b - 0xF0) * 0x40000 + (b1 - 0x80) * 0x1000
              + (b2 - 0x80) * 0x40 + (b3 - 0x80)) :: cs)
        else none
      | _ => none
    else none

/-- UTF-8 decoding straight to a `String`. -/
def utf8DecodeStr (bs : List Nat) : Option String :=
  (utf8Decode bs).map (fun cs => ⟨cs⟩)

/-- UTF-8 encoding of a single scalar value. -/
def utf8EncodeChar (c : Char) : List Nat :=
  let n := c.toNat
  if n < 0x80 then [n]
  else if n < 0x800 then [0xC0 + n / 0x40, 0x80 + n % 0x40]
  else if n < 0x10000 then
    [0xE0 + n / 0x1000, 0x80 + n / 0x40 % 0x40, 0x80 + n % 0x40]
  else
    [0xF0 + n / 0x40000, 0x80 + n / 0x1000 % 0x40, 0x80 + n / 0x40 % 0x40,
      0x80 + n % 0x40]

/-- UTF-8 byte sequence of a string, as `str::as_bytes` exposes it. -/
def utf8Encode (s : String) : List Nat :=
  (s.data.map utf8EncodeChar).flatten

/-! ## The string ownership registry (src/ffi/mod.rs)

The process-wide set of leaked allocations is modelled as an association
list from base address to stored string.  Addresses are positive naturals;
`0` is the null pointer. -/

/-- The live allocations created by `store_string_in_pool`, keyed by base
address. -/
abbrev Heap := List (Nat × String)

/-- A fresh nonzero address not used by any live allocation. -/
def freshPtr (h : Heap) : Nat :=
  h.foldr (fun e acc => max e.1 acc) 0 + 1

/-- Model of `store_string_in_pool`: builds a `CString` from the text and
leaks it.  `CString::new(s).unwrap()` panics when the text contains an
interior NUL byte; the panic is modelled as `none`. -/
def store_string_in_pool (h : Heap) (s : String) : Option (Heap × Nat) :=
  if s.data.contains (Char.ofNat 0) then none
  else
    let p := freshPtr h
    some ((p, s) :: h, p)

/-- Model of `release_string_from_pool`: a null pointer is ignored; a live
pointer's allocation is reconstructed and freed.  For a non-null pointer
that is not a live allocation the source dereferences and double-frees raw
memory — its own SAFETY comment states "If an invalid pointer is passed,
this will cause undefined behavior" — modelled as `none`. -/
def release_string_from_pool (h : Heap) (p : Nat) : Option Heap :=
  if p = 0 then some h
  else
    match h.lookup p with
    | some _ => some (h.filter (fun e => e.1 != p))
    | none => none

/-- Model of `cel_string_free`: a null check (redundant with the one inside
`release_string_from_pool`) followed by the release. -/
def cel_string_free (h : Heap) (p : Nat) : Option Heap :=
  if p = 0 then some h else release_string_from_pool h p

/-! ## The error-buffer convention

`copy_error_to_buffer` appears verbatim in both src/ffi/context.rs and
src/ffi/program.rs.  The caller's buffer is the byte list `buf` (its length
is the buffer's capacity), `errbuf_len` is the capacity value passed through
the in/out length pointer.  The source computes
`copy_len = min(error.len(), *errbuf_len - 1)` on `usize`, so the
subtraction wraps modulo `2^64` when `*errbuf_len = 0` (release builds; a
debug build panics on the underflow), after which the write of
`copy_len + 1` bytes overruns the buffer — any write past `buf.length` is
modelled as `none`. -/
def copy_error_to_buffer (error : List Nat) (errbuf : Option (List Nat))
    (errbuf_len : Nat) : Option (Option (List Nat) × Nat) :=
  match errbuf with
  | none => some (none, errbuf_len)
  | some buf =>
    let copyLen := min error.length ((errbuf_len + (2 ^ 64 - 1)) % 2 ^ 64)
    if copyLen + 1 ≤ buf.length then
      some (some (error.take copyLen ++ 0 :: buf.drop (copyLen + 1)), copyLen)
    else none

/-! ## Inbound value marshaling (src/ffi/context.rs) -/

/-- Model of `cel_value_to_json`: converts the C tagged value into the
generic JSON-like value, rejecting non-finite doubles, invalid UTF-8 string
content, and the unsupported tags. -/
def cel_value_to_json : CelValue → Except String JValue
  | .null => .ok .null
  | .bool b => .ok (.bool b)
  | .int i => .ok (.num (numberFromI64 i))
  | .uint u => .ok (.num (.posInt u))
  | .double f =>
    match numberFromF64 f with
    | some n => .ok (.num n)
    | none => .error ("Invalid float value: " ++ fmtF64 f)
  | .string bs =>
    match utf8DecodeStr bs with
    | some s => .ok (.str s)
    | none => .error "Invalid UTF-8 string: invalid utf-8 sequence"
  | .bytes _ => .error "Unsupported value type"
  | .list => .error "Unsupported value type"
  | .map => .error "Unsupported value type"
  | .type => .error "Unsupported value type"

/-- The variable store of a `Context`: a `HashMap<String, serde_json::Value>`
modelled as an association list with unique keys. -/
abbrev Ctx := List (String × JValue)

/-- Model of `HashMap::insert` as used by `Context::add_variable`: replaces
the value when the key is present, otherwise adds an entry. -/
def insertVar (m : Ctx) (k : String) (v : JValue) : Ctx :=
  if m.any (fun e => e.1 == k) then
    m.map (fun e => if e.1 = k then (k, v) else e)
  else m ++ [(k, v)]

/-- Core of the FFI `context_add_variable` (src/ffi/context.rs): decode the
variable name from its C-string bytes, convert the tagged value, and insert.
Returns the new store, the boolean result, and the diagnostic that the FFI
wrapper hands to `copy_error_to_buffer` on failure. -/
def context_add_variable_core (ctx : Ctx) (name : List Nat) (value : CelValue) :
    Ctx × Bool × Option String :=
  match utf8DecodeStr name with
  | none => (ctx, false, some "Invalid variable name: invalid utf-8 sequence")
  | some n =>
    match cel_value_to_json value with
    | .error e => (ctx, false, some e)
    | .ok v => (insertVar ctx n v, true, none)

/-- Model of the exported `context_add_variable`, including the error-buffer
write on failure.  `none` propagates a fault inside `copy_error_to_buffer`. -/
def context_add_variable (ctx : Ctx) (name : List Nat) (value : CelValue)
    (errbuf : Option (List Nat)) (errbuf_len : Nat) :
    Option (Ctx × Bool × Option (List Nat) × Nat) :=
  match context_add_variable_core ctx name value with
  | (ctx', true, _) => some (ctx', true, errbuf, errbuf_len)
  | (ctx', false, some e) =>
    (copy_error_to_buffer (utf8Encode e) errbuf errbuf_len).map
      (fun r => (ctx', false, r.1, r.2))
  | (ctx', false, none) => some (ctx', false, errbuf, errbuf_len)

/-! ## The variable extractor (src/ffi/program.rs) -/

/-- Model of `remove_strings_and_literals`'s scanning state: `none` outside a
quoted literal, `some q` inside a literal opened by the quote character `q`.
The source expresses the same automaton as a nested loop (`skip
double-quoted` / `skip single-quoted` inner `while`s); one step of either
loop consumes exactly one character (two for a backslash escape), as here. -/
def removeStringsAux : Option Char → List Char → List Char
  | _, [] => []
  | none, c :: rest =>
    if c = Char.ofNat 34 ∨ c = Char.ofNat 39 then
      Char.ofNat 32 :: removeStringsAux (some c) rest
    else c :: removeStringsAux none rest
  | some q, c :: rest =>
    if c = q then removeStringsAux none rest
    else if c = Char.ofNat 92 then
      match rest with
      | [] => []
      | _ :: rest2 => removeStringsAux (some q) rest2
    else removeStringsAux (some q) rest

/-- Model of `remove_strings_and_literals`: replaces each quoted literal
(single- or double-quoted, with backslash consuming the following character)
by a single space. -/
def remove_strings_and_literals (expression : String) : String :=
  ⟨removeStringsAux none expression.data⟩

/-- Identifier continuation characters: `is_alphanumeric() || '_'`.  The Rust
predicate is Unicode-aware; on the ASCII expressions relevant here Lean's
ASCII `Char.isAlphanum` coincides with it. -/
def isIdentChar (c : Char) : Bool := c.isAlphanum || c = '_'

/-- Model of `is_keyword` (src/ffi/program.rs). -/
def is_keyword (w : String) : Bool :=
  match w with
  | "true" | "false" | "null" | "in" | "and" | "or" | "not" | "has" | "all"
  | "exists" | "exists_one" | "map" | "filter" | "if" | "else" | "endif" => true
  | _ => false

/-- Model of `is_builtin_function` (src/ffi/program.rs). -/
def is_builtin_function (w : String) : Bool :=
  match w with
  | "size" | "int" | "uint" | "double" | "string" | "bytes" | "duration"
  | "timestamp" | "type" | "dyn" | "has" | "startsWith" | "endsWith"
  | "contains" | "matches" => true
  | _ => false

/-- The identifier-reading inner loop of `extract_variables`: starting from
the accumulated word `w`, consume identifier characters; stop at the first
character that is not one (the source's `'.'` case breaks out of the loop on
both of its branches, so a dot stops the word like any other non-identifier
character).  Returns the word and the unconsumed suffix. -/
def readIdentTail : List Char → List Char → List Char × List Char
  | [], w => (w, [])
  | c :: rest, w =>
    if isIdentChar c then readIdentTail rest (w ++ [c]) else (w, c :: rest)

/-- The `// Skip any remaining field access` loop of `extract_variables`:
`while peek = '.' { consume the dot; consume identifier characters }`.  The
outer loop consumes every dot it sees and the inner loop every identifier
character, and the combination stops at the first character that is neither,
so when the suffix starts with a dot the two nested loops consume exactly
the longest prefix of identifier characters and dots; otherwise they consume
nothing. -/
def skipFieldAccess (l : List Char) : List Char :=
  match l with
  | '.' :: rest => rest.dropWhile (fun c => isIdentChar c || c = '.')
  | _ => l

/-- One complete pass of the `while let Some(ch) = chars.next()` scanner of
`extract_variables`, fuelled: every iteration of the source loop consumes at
least one character, so running the model with fuel at least the input
length reproduces the loop exactly (`extractLoop_fuel_congr` below).  The
accumulator plays the role of the `HashSet`. -/
def extractLoop : Nat → List Char → List String → List String
  | 0, _, acc => acc
  | _ + 1, [], acc => acc
  | fuel + 1, ch :: rest, acc =>
    if ch.isAlpha ∨ ch = '_' then
      let r := readIdentTail rest [ch]
      let word : String := ⟨r.1⟩
      if !is_keyword word && !is_builtin_function word then
        if (r.2.dropWhile Char.isWhitespace).head? = some '(' then
          extractLoop fuel r.2 acc
        else
          extractLoop fuel (skipFieldAccess r.2)
            (if word ∈ acc then acc else word :: acc)
      else
        extractLoop fuel (skipFieldAccess r.2) acc
    else if ch.isDigit then
      extractLoop fuel (rest.dropWhile (fun c => c.isDigit || c = '.')) acc
    else
      extractLoop fuel rest acc

/-- Model of `extract_variables` (src/ffi/program.rs): strip string literals,
then scan for root identifiers that are neither keywords, built-in function
names, nor call sites. -/
def extract_variables (expression : String) : List String :=
  let cleaned := (remove_strings_and_literals expression).data
  extractLoop cleaned.length cleaned []

/-! ## Inbound conversion to the engine's value type (src/ffi/program.rs) -/

mutual
/-- Model of `json_to_cel_value`: structural conversion of the generic value
into the engine's native value, trying `as_i64`, then `as_u64`, then
`as_f64` on numbers. -/
def json_to_cel_value : JValue → Except String CelRustValue
  | .null => .ok .null
  | .bool b => .ok (.bool b)
  | .num n =>
    match n.as_i64 with
    | some i => .ok (.int i)
    | none =>
      match n.as_u64 with
      | some u => .ok (.uint u)
      | none =>
        match n.as_f64 with
        | some q => .ok (.float (.finite q))
        | none => .error "Invalid number format"
  | .str s => .ok (.string s)
  | .arr xs => (jarrToCel xs).map CelRustValue.list
  | .obj kvs => (jobjToCel kvs).map CelRustValue.map

/-- Element-wise conversion of a JSON array, failing on the first failing
element, as `collect::<Result<Vec<_>, _>>` does. -/
def jarrToCel : JArr → Except String (List CelRustValue)
  | .nil => .ok []
  | .cons x xs => do
    let cv ← json_to_cel_value x
    let rest ← jarrToCel xs
    .ok (cv :: rest)

/-- Entry-wise conversion of a JSON object, failing on the first failing
value. -/
def jobjToCel : JObj → Except String (List (String × CelRustValue))
  | .nil => .ok []
  | .cons k v rest => do
    let cv ← json_to_cel_value v
    let r ← jobjToCel rest
    .ok ((k, cv) :: r)
end

/-! ## Program handles and outbound marshaling (src/ffi/program.rs) -/

/-- Model of the `Program` struct.  The compiled-expression handle produced
by the external engine's compiler is opaque to this layer, so its type is a
parameter. -/
structure Program (π : Type) where
  program : Option π
  -- the source names this field `variables`, a reserved word in Lean
  vars : List String

/-- Model of `Program::new`. -/
def Program.new (π : Type) : Program π := ⟨none, []⟩

/-- Model of `Program::compile`.  The external engine's compiler
(`CelProgram::compile`) enters as the oracle `celCompile`.  On success both
the handle and the extracted variable set are replaced; on failure the match
takes the `Err` arm before either field is assigned, so the previous state
survives untouched. -/
def Program.compile (celCompile : String → Except String π) (p : Program π)
    (expression : String) : Program π × Except String Unit :=
  match celCompile expression with
  | .ok prog =>
    ((⟨some prog, extract_variables expression⟩ : Program π), .ok ())
  | .error e => (p, .error ("Compilation error: " ++ e))

/-- The binding set handed to the external engine: every `Context` entry is
converted by `json_to_cel_value`, failing fast on the first conversion error
and attributing it to the variable's name. -/
def buildCelCtx : Ctx → Except String (List (String × CelRustValue))
  | [] => .ok []
  | (n, v) :: rest =>
    match json_to_cel_value v with
    | .error e =>
      .error ("Error converting variable '" ++ n ++ "': " ++ e)
    | .ok cv => (buildCelCtx rest).map (fun r => (n, cv) :: r)

/-- Model of `Program::execute`.  The external engine's evaluator enters as
the oracle `exec`. -/
def Program.execute (exec : π → List (String × CelRustValue) → Except String CelRustValue)
    (p : Program π) (ctx : Ctx) : Except String CelRustValue :=
  match p.program with
  | none => .error "No expression compiled"
  | some prog =>
    match buildCelCtx ctx with
    | .error e => .error e
    | .ok cctx =>
      match exec prog cctx with
      | .ok v => .ok v
      | .error e => .error ("Execution error: " ++ e)

/-- Model of `cel_value_to_c_value`: writes the engine's result into the
caller-supplied tagged-value slot (`none` models a null result pointer, in
which case the source returns an error before any write).  A string result
allocates a registry entry; an interior NUL in it makes
`store_string_in_pool` panic, propagated as `none`.  List and map results
are rejected before any field of the slot is written and before any
allocation. -/
def cel_value_to_c_value (h : Heap) (v : CelRustValue) (slot : Option CelValue) :
    Option (Heap × Option CelValue × Except String Unit) :=
  match slot with
  | none => some (h, none, .error "Result pointer is null")
  | some old =>
    match v with
    | .null => some (h, some .null, .ok ())
    | .bool b => some (h, some (.bool b), .ok ())
    | .int i => some (h, some (.int i), .ok ())
    | .uint u => some (h, some (.uint u), .ok ())
    | .float f => some (h, some (.double f), .ok ())
    | .string s =>
      match store_string_in_pool h s with
      | none => none
      | some (h', _) => some (h', some (.string (utf8Encode s)), .ok ())
    | .list _ => some (h, some old, .error "List return values not yet supported")
    | .map _ => some (h, some old, .error "Map return values not yet supported")
    | .other => some (h, some old, .error "Unsupported return value type")

/-- Model of the exported `program_execute`: evaluate, marshal the result
outbound, and on any failure report the diagnostic through the error
buffer.  `none` propagates a panic (interior-NUL string result) or an
error-buffer fault. -/
def program_execute (exec : π → List (String × CelRustValue) → Except String CelRustValue)
    (p : Program π) (ctx : Ctx) (slot : Option CelValue) (h : Heap)
    (errbuf : Option (List Nat)) (errbuf_len : Nat) :
    Option (Heap × Option CelValue × Bool × Option (List Nat) × Nat) :=
  match Program.execute exec p ctx with
  | .ok v =>
    match cel_value_to_c_value h v slot with
    | none => none
    | some (h', slot', .ok ()) => some (h', slot', true, errbuf, errbuf_len)
    | some (h', slot', .error e) =>
      (copy_error_to_buffer (utf8Encode e) errbuf errbuf_len).map
        (fun r => (h', slot', false, r.1, r.2))
  | .error e =>
    (copy_error_to_buffer (utf8Encode e) errbuf errbuf_len).map
      (fun r => (h, slot, false, r.1, r.2))

/-- Model of the exported `program_compile`: decode the expression bytes,
compile, and report a failure diagnostic through the error buffer. -/
def program_compile (celCompile : String → Except String π) (p : Program π)
    (expression : List Nat) (errbuf : Option (List Nat)) (errbuf_len : Nat) :
    Option (Program π × Bool × Option (List Nat) × Nat) :=
  match utf8DecodeStr expression with
  | none =>
    (copy_error_to_buffer
        (utf8Encode "Invalid expression string: invalid utf-8 sequence")
        errbuf errbuf_len).map (fun r => (p, false, r.1, r.2))
  | some s =>
    match Program.compile celCompile p s with
    | (p', .ok ()) => some (p', true, errbuf, errbuf_len)
    | (p', .error e) =>
      (copy_error_to_buffer (utf8Encode e) errbuf errbuf_len).map
        (fun r => (p', false, r.1, r.2))

/-- Model of the exported `program_validate`: compile without retaining
state; on success write the extracted-variable count through the (nullable)
count pointer, on failure report the diagnostic through the error buffer. -/
def program_validate (celCompile : String → Except String π)
    (expression : List Nat) (variables_len : Option Nat)
    (errbuf : Option (List Nat)) (errbuf_len : Nat) :
    Option (Option Nat × Bool × Option (List Nat) × Nat) :=
  match utf8DecodeStr expression with
  | none =>
    (copy_error_to_buffer
        (utf8Encode "Invalid expression string: invalid utf-8 sequence")
        errbuf errbuf_len).map (fun r => (variables_len, false, r.1, r.2))
  | some s =>
    match celCompile s with
    | .ok _ =>
      some (variables_len.map (fun _ => (extract_variables s).length), true,
        errbuf, errbuf_len)
    | .error e =>
      (copy_error_to_buffer (utf8Encode ("Validation error: " ++ e))
          errbuf errbuf_len).map (fun r => (variables_len, false, r.1, r.2))

/-- The two distinct diagnostics `cel_value_to_c_value` produces for
composite (list/map) results, `none` on every other value shape. -/
def unsupportedMsg : CelRustValue → Option String
  | .list _ => some "List return values not yet supported"
  | .map _ => some "Map return values not yet supported"
  | _ => none

/-! ## Supporting lemmas -/

theorem dropWhile_length_le {α : Type} (p : α → Bool) :
    ∀ l : List α, (l.dropWhile p).length ≤ l.length := by
  intro l
  induction l with
  | nil => simp
  | cons c rest ih =>
    simp only [List.dropWhile]
    split
    · exact ih.trans (by simp)
    · simp

theorem readIdentTail_length : ∀ (l w : List Char),
    (readIdentTail l w).2.length ≤ l.length := by
  intro l
  induction l with
  | nil => intro w; simp [readIdentTail]
  | cons c rest ih =>
    intro w
    simp only [readIdentTail]
    split
    · exact (ih (w ++ [c])).trans (by simp)
    · simp

theorem skipFieldAccess_length (l : List Char) :
    (skipFieldAccess l).length ≤ l.length := by
  unfold skipFieldAccess
  split
  · next rest => exact (dropWhile_length_le _ rest).trans (Nat.le_succ _)
  · exact Nat.le_refl _

theorem extractLoop_fuel_congr : ∀ (f g : Nat) (l : List Char) (acc : List String),
    l.length ≤ f → l.length ≤ g → extractLoop f l acc = extractLoop g l acc := by
  intro f
  induction f with
  | zero =>
    intro g l acc hf _
    have : l = [] := List.length_eq_zero.mp (Nat.le_zero.mp hf)
    subst this
    cases g <;> rfl
  | succ n ih =>
    intro g l acc hf hg
    match l with
    | [] => cases g <;> rfl
    | ch :: rest =>
      obtain ⟨g', rfl⟩ : ∃ g', g = g' + 1 :=
        ⟨g - 1, by simp at hg; omega⟩
      have hr : rest.length ≤ n := by simp at hf; omega
      have hrg : rest.length ≤ g' := by simp at hg; omega
      simp only [extractLoop]
      split
      · have hident := readIdentTail_length rest [ch]
        split
        · split
          · exact ih g' _ acc (hident.trans hr) (hident.trans hrg)
          · exact ih g' _ _
              (((skipFieldAccess_length _).trans hident).trans hr)
              (((skipFieldAccess_length _).trans hident).trans hrg)
        · exact ih g' _ acc
            (((skipFieldAccess_length _).trans hident).trans hr)
            (((skipFieldAccess_length _).trans hident).trans hrg)
      · split
        · exact ih g' _ acc ((dropWhile_length_le _ rest).trans hr)
            ((dropWhile_length_le _ rest).trans hrg)
        · exact ih g' rest acc hr hrg

theorem extractLoop_nodup : ∀ (fuel : Nat) (l : List Char) (acc : List String),
    acc.Nodup → (extractLoop fuel l acc).Nodup := by
  intro fuel
  induction fuel with
  | zero => intro l acc h; exact h
  | succ n ih =>
    intro l acc h
    match l with
    | [] => exact h
    | ch :: rest =>
      simp only [extractLoop]
      split
      · split
        · split
          · exact ih _ acc h
          · refine ih _ _ ?_
            split
            · exact h
            · exact List.nodup_cons.mpr ⟨by assumption, h⟩
        · exact ih _ acc h
      · split
        · exact ih _ acc h
        · exact ih rest acc h

theorem copy_error_spec (m buf : List Nat) (c : Nat) (hbuf : buf.length = c)
    (hc : 1 ≤ c) (hlt : c < 2 ^ 64) :
    copy_error_to_buffer m (some buf) c =
      some (some (m.take (min m.length (c - 1)) ++
          0 :: buf.drop (min m.length (c - 1) + 1)),
        min m.length (c - 1)) := by
  have h64 : (2 : Nat) ^ 64 = 18446744073709551616 := by norm_num
  rw [h64] at hlt
  have hmod : (c + (2 ^ 64 - 1)) % 2 ^ 64 = c - 1 := by
    rw [h64]
    omega
  simp only [copy_error_to_buffer, hmod]
  rw [if_pos (by rw [hbuf]; omega)]

theorem lookup_filter_self (h : Heap) (p : Nat) :
    List.lookup p (h.filter (fun e => e.1 != p)) = none := by
  induction h with
  | nil => rfl
  | cons e t ih =>
    by_cases hp : e.1 = p
    · simp [List.filter_cons, hp, ih]
    · have h1 : (e.1 != p) = true := by simp [hp]
      have h2 : (p == e.1) = false := by simp [Ne.symm hp]
      simp [List.filter_cons, h1, List.lookup, h2, ih]

theorem lookup_filter_other (h : Heap) (p q : Nat) (hq : q ≠ p) :
    List.lookup q (h.filter (fun e => e.1 != p)) = List.lookup q h := by
  induction h with
  | nil => rfl
  | cons e t ih =>
    have hbq : (q == p) = false := by simp [hq]
    by_cases hp : e.1 = p
    · simp [List.filter_cons, hp, List.lookup, hbq, ih]
    · by_cases hqe : q = e.1
      · have hb : (q == e.1) = true := by simp [hqe]
        have h1 : (e.1 != p) = true := by simp [hp]
        simp [List.filter_cons, h1, List.lookup, hb]
      · have hb : (q == e.1) = false := by simp [hqe]
        have h1 : (e.1 != p) = true := by simp [hp]
        simp [List.filter_cons, h1, List.lookup, hb, ih]

theorem any_key_iff (m : Ctx) (k : String) :
    m.any (fun e => e.1 == k) = true ↔ k ∈ m.map Prod.fst := by
  rw [List.any_eq_true]
  constructor
  · rintro ⟨e, he, heq⟩
    exact List.mem_map.mpr ⟨e, he, beq_iff_eq.mp heq⟩
  · intro h
    obtain ⟨e, he, heq⟩ := List.mem_map.mp h
    exact ⟨e, he, beq_iff_eq.mpr heq⟩

theorem insertVar_keys (m : Ctx) (k : String) (v : JValue) :
    (insertVar m k v).map Prod.fst =
      if m.any (fun e => e.1 == k) then m.map Prod.fst
      else m.map Prod.fst ++ [k] := by
  by_cases hmem : m.any (fun e => e.1 == k) = true
  · simp only [insertVar, hmem, if_true, List.map_map]
    refine List.map_congr_left ?_
    intro e _
    by_cases he : e.1 = k
    · simp [he]
    · simp [he]
  · simp [insertVar, hmem]

theorem insertVar_count (m : Ctx) (k : String) (v : JValue)
    (hnd : (m.map Prod.fst).Nodup) :
    ((insertVar m k v).map Prod.fst).count k = 1 := by
  rw [insertVar_keys]
  by_cases hmem : m.any (fun e => e.1 == k) = true
  · rw [if_pos hmem]
    exact List.count_eq_one_of_mem hnd ((any_key_iff m k).mp hmem)
  · rw [if_neg hmem]
    have hk : k ∉ m.map Prod.fst := fun hh => hmem ((any_key_iff m k).mpr hh)
    rw [List.count_append]
    simp [List.count_eq_zero.mpr hk]

theorem insertVar_nodup (m : Ctx) (k : String) (v : JValue)
    (hnd : (m.map Prod.fst).Nodup) :
    ((insertVar m k v).map Prod.fst).Nodup := by
  rw [insertVar_keys]
  by_cases hmem : m.any (fun e => e.1 == k) = true
  · rw [if_pos hmem]; exact hnd
  · rw [if_neg hmem]
    have hk : k ∉ m.map Prod.fst := fun hh => hmem ((any_key_iff m k).mpr hh)
    simp [List.nodup_append, hnd, hk]

theorem lookup_replace (m : Ctx) (k : String) (v : JValue)
    (hmem : k ∈ m.map Prod.fst) :
    List.lookup k (m.map (fun e => if e.1 = k then (k, v) else e)) = some v := by
  induction m with
  | nil => simp at hmem
  | cons e t ih =>
    rw [List.map_cons]
    simp only [List.map_cons, List.mem_cons] at hmem
    by_cases he : e.1 = k
    · rw [if_pos he]
      simp [List.lookup]
    · rw [if_neg he]
      have hmem2 : k ∈ t.map Prod.fst := by
        rcases hmem with h1 | h1
        · exact absurd h1.symm he
        · exact h1
      have hbe : (k == e.1) = false := by
        simp only [beq_eq_false_iff_ne, ne_eq]
        exact fun hh => he hh.symm
      simp only [List.lookup, hbe]
      exact ih hmem2

theorem lookup_append_last (m : Ctx) (k : String) (v : JValue)
    (hmem : k ∉ m.map Prod.fst) :
    List.lookup k (m ++ [(k, v)]) = some v := by
  induction m with
  | nil => simp [List.lookup]
  | cons e t ih =>
    have hne : k ≠ e.1 := by
      intro hh
      exact hmem (by simp [hh.symm])
    have hbe : (k == e.1) = false := by simpa using hne
    have hmem2 : k ∉ t.map Prod.fst := by
      intro hh
      exact hmem (by simp [hh])
    simp only [List.cons_append, List.lookup, hbe]
    exact ih hmem2

theorem insertVar_lookup_self (m : Ctx) (k : String) (v : JValue) :
    List.lookup k (insertVar m k v) = some v := by
  unfold insertVar
  by_cases hmem : m.any (fun e => e.1 == k) = true
  · rw [if_pos hmem]
    exact lookup_replace m k v ((any_key_iff m k).mp hmem)
  · rw [if_neg hmem]
    exact lookup_append_last m k v (fun hh => hmem ((any_key_iff m k).mpr hh))

theorem buildCelCtx_lookup (m : Ctx) (c : List (String × CelRustValue))
    (hm : buildCelCtx m = .ok c) (n : String) (j : JValue) (cv : CelRustValue)
    (hj : List.lookup n m = some j) (hcv : json_to_cel_value j = .ok cv) :
    List.lookup n c = some cv := by
  induction m generalizing c with
  | nil => simp [List.lookup] at hj
  | cons e t ih =>
    obtain ⟨k0, v0⟩ := e
    simp only [buildCelCtx] at hm
    cases hv : json_to_cel_value v0 with
    | error e0 => rw [hv] at hm; exact absurd hm (by simp)
    | ok cv0 =>
      rw [hv] at hm
      cases ht : buildCelCtx t with
      | error e1 => rw [ht] at hm; exact absurd hm (by simp [Except.map])
      | ok c1 =>
        rw [ht] at hm
        simp only [Except.map, Except.ok.injEq] at hm
        subst hm
        by_cases hk : n = k0
        · have hb : (n == k0) = true := by simpa using hk
          simp only [List.lookup, hb] at hj ⊢
          have : v0 = j := by injection hj
          subst this
          rw [hv] at hcv
          injection hcv with h0
          rw [h0]
        · have hb : (n == k0) = false := by simpa using hk
          simp only [List.lookup, hb] at hj ⊢
          exact ih c1 ht hj

/-! ## Claims -/

/-- C1 (amended): releasing the null pointer is a safe no-op that leaves the
registry unchanged, and releasing a live descriptor frees exactly that entry,
leaving every other live descriptor intact.  The original claim's further
assertion — that releasing an unknown or already-released non-null pointer is
also a safe no-op — fails: that path dereferences and double-frees raw
memory (see `c1_release_counterexample`). -/
theorem c1_release_descriptor (h : Heap) (p : Nat) (s : String)
    (hlive : List.lookup p h = some s) (hp : p ≠ 0) :
    release_string_from_pool h 0 = some h ∧
    ∃ h', release_string_from_pool h p = some h' ∧
      List.lookup p h' = none ∧
      ∀ q, q ≠ p → List.lookup q h' = List.lookup q h := by
  refine ⟨by simp [release_string_from_pool], ?_⟩
  refine ⟨h.filter (fun e => e.1 != p), ?_, ?_, ?_⟩
  · simp only [release_string_from_pool, if_neg hp, hlive]
  · exact lookup_filter_self h p
  · exact fun q hq => lookup_filter_other h p q hq

/-- Witness for `c1_release_descriptor` at a one-entry registry. -/
theorem c1_release_witness :
    release_string_from_pool [(1, "a")] 0 = some [(1, "a")] ∧
    ∃ h', release_string_from_pool [(1, "a")] 1 = some h' ∧
      List.lookup 1 h' = none ∧
      ∀ q, q ≠ 1 → List.lookup q h' = List.lookup q [(1, "a")] :=
  c1_release_descriptor [(1, "a")] 1 "a" rfl (by decide)

/-- C1 counterexample: releasing the pointer `1`, which is not a live
descriptor of the empty registry, is not a defined no-op — the model reaches
the branch the source documents as undefined behaviour. -/
theorem c1_release_counterexample :
    release_string_from_pool [] 1 = none ∧
    ∀ h', release_string_from_pool [] 1 ≠ some h' := by
  refine ⟨rfl, ?_⟩
  intro h' hcontra
  rw [show release_string_from_pool [] 1 = none from rfl] at hcontra
  exact Option.noConfusion hcontra

/-- C2 (amended): for every failure message and every non-null error buffer
of capacity `c ≥ 1` (a representable `usize`): when the message is longer
than `c - 1` bytes, exactly `c - 1` bytes of it are written, followed by a
0 byte at offset `c - 1`, and `c - 1` is reported; when it fits, the whole
message is written, null-terminated, and its length is reported.  The
original claim's "for every capacity" fails at capacity 0, where the
`usize` subtraction `capacity - 1` underflows (see
`c2_error_buffer_counterexample`). -/
theorem c2_error_buffer (m buf : List Nat) (c : Nat) (hbuf : buf.length = c)
    (hc : 1 ≤ c) (hlt : c < 2 ^ 64) :
    ∃ buf' len, copy_error_to_buffer m (some buf) c = some (some buf', len) ∧
      (c - 1 < m.length →
        len = c - 1 ∧ buf'.take (c - 1) = m.take (c - 1) ∧
          buf'[c - 1]? = some 0) ∧
      (m.length ≤ c - 1 →
        len = m.length ∧ buf'.take m.length = m ∧
          buf'[m.length]? = some 0) := by
  have hspec := copy_error_spec m buf c hbuf hc hlt
  set L := min m.length (c - 1) with hL
  refine ⟨m.take L ++ 0 :: buf.drop (L + 1), L, hspec, ?_, ?_⟩
  · intro hlong
    have hL1 : L = c - 1 := by omega
    have htk : (m.take L).length = L := List.length_take_of_le (by omega)
    refine ⟨hL1, ?_, ?_⟩
    · rw [← hL1, List.take_append_of_le_length htk.ge, List.take_take]
      congr 1
      omega
    · rw [← hL1, List.getElem?_append_right htk.le, htk]
      simp
  · intro hshort
    have hL1 : L = m.length := by omega
    have htk : (m.take L).length = L := List.length_take_of_le (by omega)
    refine ⟨hL1, ?_, ?_⟩
    · rw [← hL1, List.take_append_of_le_length htk.ge, List.take_take]
      simp [hL1]
    · rw [← hL1, List.getElem?_append_right htk.le, htk]
      simp

/-- Witness for `c2_error_buffer`: a 3-byte message against a capacity-3
buffer (truncating case). -/
theorem c2_error_buffer_witness :
    ∃ buf' len,
      copy_error_to_buffer [65, 66, 67] (some [9, 9, 9]) 3 = some (some buf', len) ∧
      (3 - 1 < [65, 66, 67].length →
        len = 3 - 1 ∧ buf'.take (3 - 1) = [65, 66, 67].take (3 - 1) ∧
          buf'[3 - 1]? = some 0) ∧
      ([65, 66, 67].length ≤ 3 - 1 →
        len = [65, 66, 67].length ∧ buf'.take [65, 66, 67].length = [65, 66, 67] ∧
          buf'[[65, 66, 67].length]? = some 0) :=
  c2_error_buffer [65, 66, 67] [9, 9, 9] 3 rfl (by norm_num) (by norm_num)

/-- C2 counterexample: at capacity 0 (with the buffer the claim describes, a
0-byte allocation) the write faults instead of truncating safely: the `usize`
subtraction wraps and the null terminator alone already overruns the
buffer. -/
theorem c2_error_buffer_counterexample :
    copy_error_to_buffer [65] (some []) 0 = none ∧
    ∀ r, copy_error_to_buffer [65] (some []) 0 ≠ some r := by
  refine ⟨rfl, ?_⟩
  intro r hcontra
  rw [show copy_error_to_buffer [65] (some []) 0 = none from rfl] at hcontra
  exact Option.noConfusion hcontra

/-- C3: the variable extractor returns exactly the stated deduplicated root
identifier sets on the five reference inputs, and for every input expression
the output list is free of duplicates (the accumulator mirrors the source's
`HashSet`). -/
theorem c3_extractor :
    (extract_variables "x + y").toFinset = {"x", "y"} ∧
    (extract_variables "true && y > false").toFinset = {"y"} ∧
    (extract_variables "size(arr) + len > 0").toFinset = {"arr", "len"} ∧
    (extract_variables "user.name + user.age").toFinset = {"user"} ∧
    (extract_variables "1 + 2 * 3").toFinset = (∅ : Finset String) ∧
    ∀ e : String, (extract_variables e).Nodup := by
  refine ⟨by decide, by decide, by decide, by decide, by decide, ?_⟩
  intro e
  exact extractLoop_nodup _ _ [] List.nodup_nil

/-- C4: a successful recompile refreshes the compiled handle and the
recorded root-identifier set together, and a failed compile leaves the
`Program` — both its compiled handle and its variable set — exactly as it
was, still usable for its prior expression. -/
theorem c4_recompile {π : Type} (cc : String → Except String π)
    (p : Program π) (e : String) :
    (∀ prog, cc e = .ok prog →
      Program.compile cc p e =
        ((⟨some prog, extract_variables e⟩ : Program π), .ok ())) ∧
    (∀ msg, cc e = .error msg →
      Program.compile cc p e = (p, .error ("Compilation error: " ++ msg))) := by
  constructor
  · intro prog hok
    simp [Program.compile, hok]
  · intro msg herr
    simp [Program.compile, herr]

/-- Witness for `c4_recompile`: a failing compile against a program that
already holds a compiled handle and a variable set leaves both intact. -/
theorem c4_recompile_witness :
    Program.compile (fun _ => (.error "boom" : Except String Nat))
        ⟨some 7, ["x"]⟩ "1 +" =
      (⟨some 7, ["x"]⟩, .error ("Compilation error: " ++ "boom")) :=
  (c4_recompile (fun _ => .error "boom") ⟨some 7, ["x"]⟩ "1 +").2 "boom" rfl

/-- C5: two failure paths of the boundary operations do terminate the
process, contradicting the claim (and §7 of the spec, which is the clear
intent): a string result containing an interior NUL byte makes
`store_string_in_pool` panic on `CString::new(..).unwrap()` — reached from
`program_execute` through `cel_value_to_c_value` — and any diagnostic write
into a caller-supplied error buffer of capacity 0 underflows
`*errbuf_len - 1`.  Both code paths are modelled by `none`. -/
theorem c5_no_panic_violated :
    store_string_in_pool [] ⟨['a', Char.ofNat 0, 'b']⟩ = none ∧
    cel_value_to_c_value [] (.string ⟨['a', Char.ofNat 0, 'b']⟩) (some .null) = none ∧
    copy_error_to_buffer [69] (some []) 0 = none :=
  ⟨rfl, rfl, rfl⟩

/-- C6: adding a variable whose tagged value is a NaN or ±infinity double
fails with a conversion error naming the offending value
(`serde_json::Number::from_f64` rejects non-finite doubles), and the
context's variable mapping is returned unmodified. -/
theorem c6_nonfinite_rejected (ctx : Ctx) (name : List Nat) (n : String)
    (hname : utf8DecodeStr name = some n) (f : F64)
    (hf : f = .nan ∨ f = .inf ∨ f = .negInf) :
    context_add_variable_core ctx name (.double f) =
      (ctx, false, some ("Invalid float value: " ++ fmtF64 f)) := by
  have hnum : numberFromF64 f = none := by
    rcases hf with h | h | h <;> subst h <;> rfl
  simp [context_add_variable_core, hname, cel_value_to_json, hnum]

/-- Witness for `c6_nonfinite_rejected`: adding a NaN double under the name
`x` to a one-entry context fails and preserves the entry. -/
theorem c6_nonfinite_witness :
    context_add_variable_core [("a", JValue.null)] [120] (.double .nan) =
      ([("a", JValue.null)], false, some ("Invalid float value: " ++ fmtF64 .nan)) :=
  c6_nonfinite_rejected [("a", JValue.null)] [120] "x" (by decide) .nan (Or.inl rfl)

/-- C9: adding a variable whose tagged string payload is not valid UTF-8
fails with the invalid-UTF-8 diagnostic and returns the variable mapping
unmodified — string content is validated at the boundary. -/
theorem c9_invalid_utf8_content (ctx : Ctx) (name : List Nat) (n : String)
    (hname : utf8DecodeStr name = some n) (bs : List Nat)
    (hbad : utf8Decode bs = none) :
    context_add_variable_core ctx name (.string bs) =
      (ctx, false, some "Invalid UTF-8 string: invalid utf-8 sequence") := by
  have hb2 : utf8DecodeStr bs = none := by simp [utf8DecodeStr, hbad]
  simp [context_add_variable_core, hname, cel_value_to_json, hb2]

/-- Witness for `c9_invalid_utf8_content`: the lone byte `0xFF` is not valid
UTF-8. -/
theorem c9_invalid_utf8_witness :
    context_add_variable_core [("a", JValue.null)] [120] (.string [255]) =
      ([("a", JValue.null)], false,
        some "Invalid UTF-8 string: invalid utf-8 sequence") :=
  c9_invalid_utf8_content [("a", JValue.null)] [120] "x" (by decide) [255] (by decide)

/-- C8: binding the same name twice (both conversions succeeding) leaves
exactly one entry for that name, holding the second value; consequently the
engine-native binding set that `Program.execute` builds for any subsequent
execution maps the name to the conversion of the second value only. -/
theorem c8_last_write_wins (ctx : Ctx) (hnd : (ctx.map Prod.fst).Nodup)
    (nameB : List Nat) (n : String) (hn : utf8DecodeStr nameB = some n)
    (v1 v2 : CelValue) (j1 j2 : JValue)
    (h1 : cel_value_to_json v1 = .ok j1) (h2 : cel_value_to_json v2 = .ok j2) :
    context_add_variable_core ctx nameB v1 = (insertVar ctx n j1, true, none) ∧
    context_add_variable_core (insertVar ctx n j1) nameB v2 =
      (insertVar (insertVar ctx n j1) n j2, true, none) ∧
    ((insertVar (insertVar ctx n j1) n j2).map Prod.fst).count n = 1 ∧
    List.lookup n (insertVar (insertVar ctx n j1) n j2) = some j2 ∧
    (∀ cctx cv, buildCelCtx (insertVar (insertVar ctx n j1) n j2) = .ok cctx →
      json_to_cel_value j2 = .ok cv → List.lookup n cctx = some cv) := by
  refine ⟨?_, ?_, ?_, ?_, ?_⟩
  · simp [context_add_variable_core, hn, h1]
  · simp [context_add_variable_core, hn, h2]
  · exact insertVar_count _ n j2 (insertVar_nodup _ n j1 hnd)
  · exact insertVar_lookup_self _ n j2
  · intro cctx cv hcc hcv
    exact buildCelCtx_lookup _ cctx hcc n j2 cv (insertVar_lookup_self _ n j2) hcv

/-- Witness for `c8_last_write_wins`: bind `n` to `true`, then to `5`. -/
theorem c8_last_write_wins_witness :
    context_add_variable_core [] [110] (.bool true) =
      (insertVar [] "n" (.bool true), true, none) ∧
    context_add_variable_core (insertVar [] "n" (.bool true)) [110] (.int 5) =
      (insertVar (insertVar [] "n" (.bool true)) "n" (.num (.posInt 5)), true, none) ∧
    ((insertVar (insertVar [] "n" (.bool true)) "n" (.num (.posInt 5))).map
        Prod.fst).count "n" = 1 ∧
    List.lookup "n" (insertVar (insertVar [] "n" (.bool true)) "n" (.num (.posInt 5))) =
      some (.num (.posInt 5)) ∧
    (∀ cctx cv,
      buildCelCtx (insertVar (insertVar [] "n" (.bool true)) "n" (.num (.posInt 5))) =
        .ok cctx →
      json_to_cel_value (.num (.posInt 5)) = .ok cv →
      List.lookup "n" cctx = some cv) :=
  c8_last_write_wins [] List.nodup_nil [110] "n" (by decide) (.bool true) (.int 5)
    (.bool true) (.num (.posInt 5)) rfl rfl

/-- C7: when the engine's result is a list or a map, `program_execute`
returns `false`, writes the distinct unsupported-return-type diagnostic
(possibly truncated) into the error buffer, leaves the caller's result slot
exactly as it was (no partial conversion), and leaves the string registry
untouched (no entry is leaked). -/
theorem c7_composite_result {π : Type}
    (exec : π → List (String × CelRustValue) → Except String CelRustValue)
    (p : Program π) (prog : π) (hp : p.program = some prog)
    (ctx : Ctx) (cctx : List (String × CelRustValue))
    (hctx : buildCelCtx ctx = .ok cctx)
    (v : CelRustValue) (msg : String) (hv : unsupportedMsg v = some msg)
    (hexec : exec prog cctx = .ok v)
    (h : Heap) (slot : CelValue) (buf : List Nat) (c : Nat)
    (hbuf : buf.length = c) (hc : 1 ≤ c) (hlt : c < 2 ^ 64) :
    program_execute exec p ctx (some slot) h (some buf) c =
      some (h, some slot, false,
        some ((utf8Encode msg).take (min (utf8Encode msg).length (c - 1)) ++
          0 :: buf.drop (min (utf8Encode msg).length (c - 1) + 1)),
        min (utf8Encode msg).length (c - 1)) := by
  have hcv : cel_value_to_c_value h v (some slot) =
      some (h, some slot, .error msg) := by
    cases v with
    | list xs =>
      simp only [unsupportedMsg, Option.some.injEq] at hv
      subst hv
      rfl
    | map kvs =>
      simp only [unsupportedMsg, Option.some.injEq] at hv
      subst hv
      rfl
    | null => exact absurd hv (by simp [unsupportedMsg])
    | bool b => exact absurd hv (by simp [unsupportedMsg])
    | int i => exact absurd hv (by simp [unsupportedMsg])
    | uint u => exact absurd hv (by simp [unsupportedMsg])
    | float f0 => exact absurd hv (by simp [unsupportedMsg])
    | string s => exact absurd hv (by simp [unsupportedMsg])
    | other => exact absurd hv (by simp [unsupportedMsg])
  simp only [program_execute, Program.execute, hp, hctx, hexec, hcv,
    copy_error_spec (utf8Encode msg) buf c hbuf hc hlt]
  rfl

/-- Witness for `c7_composite_result`: an engine returning an empty list
through a program holding a compiled handle, with a 50-byte error buffer. -/
theorem c7_composite_witness :
    program_execute (fun (_ : Unit) _ => .ok (.list [])) ⟨some (), []⟩ []
        (some .null) [] (some (List.replicate 50 9)) 50 =
      some ([], some .null, false,
        some ((utf8Encode "List return values not yet supported").take
            (min (utf8Encode "List return values not yet supported").length (50 - 1)) ++
          0 :: (List.replicate 50 9).drop
            (min (utf8Encode "List return values not yet supported").length (50 - 1) + 1)),
        min (utf8Encode "List return values not yet supported").length (50 - 1)) :=
  c7_composite_result (fun (_ : Unit) _ => .ok (.list [])) ⟨some (), []⟩ () rfl
    [] [] rfl (.list []) "List return values not yet supported" rfl rfl
    [] .null (List.replicate 50 9) 50 (by simp) (by norm_num) (by norm_num)

/-- C10: the three boundary operations never touch the error buffer or the
capacity value on success, and never touch the capacity value when the
caller passes a null error-buffer pointer — the capacity is overwritten
only when a diagnostic is actually written. -/
theorem c10_error_buffer_frame {π : Type} :
    (∀ ctx name v eb c ctx' eb' c',
      context_add_variable ctx name v eb c = some (ctx', true, eb', c') →
      eb' = eb ∧ c' = c) ∧
    (∀ (cc : String → Except String π) p expr eb c p' eb' c',
      program_compile cc p expr eb c = some (p', true, eb', c') →
      eb' = eb ∧ c' = c) ∧
    (∀ (cc : String → Except String π) expr vl eb c vl' eb' c',
      program_validate cc expr vl eb c = some (vl', true, eb', c') →
      eb' = eb ∧ c' = c) ∧
    (∀ ctx name v c ctx' b eb' c',
      context_add_variable ctx name v none c = some (ctx', b, eb', c') →
      eb' = none ∧ c' = c) ∧
    (∀ (cc : String → Except String π) p expr c p' b eb' c',
      program_compile cc p expr none c = some (p', b, eb', c') →
      eb' = none ∧ c' = c) ∧
    (∀ (cc : String → Except String π) expr vl c vl' b eb' c',
      program_validate cc expr vl none c = some (vl', b, eb', c') →
      eb' = none ∧ c' = c) := by
  refine ⟨?_, ?_, ?_, ?_, ?_, ?_⟩
  · intro ctx name v eb c ctx' eb' c' hcall
    unfold context_add_variable at hcall
    rcases hcore : context_add_variable_core ctx name v with ⟨ctx0, b0, e0⟩
    rw [hcore] at hcall
    cases b0 with
    | true =>
      simp only [Option.some.injEq, Prod.mk.injEq] at hcall
      exact ⟨hcall.2.2.1.symm, hcall.2.2.2.symm⟩
    | false =>
      cases e0 with
      | none =>
        simp only [Option.some.injEq, Prod.mk.injEq] at hcall
        exact absurd hcall.2.1 (by simp)
      | some e =>
        dsimp only at hcall
        cases hcopy : copy_error_to_buffer (utf8Encode e) eb c with
        | none => rw [hcopy] at hcall; exact absurd hcall (by simp)
        | some r =>
          rw [hcopy] at hcall
          simp only [Option.map_some', Option.some.injEq, Prod.mk.injEq] at hcall
          exact absurd hcall.2.1 (by simp)
  · intro cc p expr eb c p' eb' c' hcall
    unfold program_compile at hcall
    cases hdec : utf8DecodeStr expr with
    | none =>
      rw [hdec] at hcall
      dsimp only at hcall
      cases hcopy : copy_error_to_buffer
          (utf8Encode "Invalid expression string: invalid utf-8 sequence") eb c with
      | none => rw [hcopy] at hcall; exact absurd hcall (by simp)
      | some r =>
        rw [hcopy] at hcall
        simp only [Option.map_some', Option.some.injEq, Prod.mk.injEq] at hcall
        exact absurd hcall.2.1 (by simp)
    | some s =>
      rw [hdec] at hcall
      dsimp only at hcall
      rcases hcomp : Program.compile cc p s with ⟨p0, r0⟩
      rw [hcomp] at hcall
      cases r0 with
      | ok u =>
        cases u
        simp only [Option.some.injEq, Prod.mk.injEq] at hcall
        exact ⟨hcall.2.2.1.symm, hcall.2.2.2.symm⟩
      | error e =>
        dsimp only at hcall
        cases hcopy : copy_error_to_buffer (utf8Encode e) eb c with
        | none => rw [hcopy] at hcall; exact absurd hcall (by simp)
        | some r =>
          rw [hcopy] at hcall
          simp only [Option.map_some', Option.some.injEq, Prod.mk.injEq] at hcall
          exact absurd hcall.2.1 (by simp)
  · intro cc expr vl eb c vl' eb' c' hcall
    unfold program_validate at hcall
    cases hdec : utf8DecodeStr expr with
    | none =>
      rw [hdec] at hcall
      dsimp only at hcall
      cases hcopy : copy_error_to_buffer
          (utf8Encode "Invalid expression string: invalid utf-8 sequence") eb c with
      | none => rw [hcopy] at hcall; exact absurd hcall (by simp)
      | some r =>
        rw [hcopy] at hcall
        simp only [Option.map_some', Option.some.injEq, Prod.mk.injEq] at hcall
        exact absurd hcall.2.1 (by simp)
    | some s =>
      rw [hdec] at hcall
      dsimp only at hcall
      cases hcomp : cc s with
      | ok prog =>
        rw [hcomp] at hcall
        simp only [Option.some.injEq, Prod.mk.injEq] at hcall
        exact ⟨hcall.2.2.1.symm, hcall.2.2.2.symm⟩
      | error e =>
        rw [hcomp] at hcall
        dsimp only at hcall
        cases hcopy : copy_error_to_buffer
            (utf8Encode ("Validation error: " ++ e)) eb c with
        | none => rw [hcopy] at hcall; exact absurd hcall (by simp)
        | some r =>
          rw [hcopy] at hcall
          simp only [Option.map_some', Option.some.injEq, Prod.mk.injEq] at hcall
          exact absurd hcall.2.1 (by simp)
  · intro ctx name v c ctx' b eb' c' hcall
    unfold context_add_variable at hcall
    rcases hcore : context_add_variable_core ctx name v with ⟨ctx0, b0, e0⟩
    rw [hcore] at hcall
    cases b0 with
    | true =>
      simp only [Option.some.injEq, Prod.mk.injEq] at hcall
      exact ⟨hcall.2.2.1.symm, hcall.2.2.2.symm⟩
    | false =>
      cases e0 with
      | none =>
        simp only [Option.some.injEq, Prod.mk.injEq] at hcall
        exact ⟨hcall.2.2.1.symm, hcall.2.2.2.symm⟩
      | some e =>
        dsimp only [copy_error_to_buffer] at hcall
        simp only [Option.map_some', Option.some.injEq, Prod.mk.injEq] at hcall
        exact ⟨hcall.2.2.1.symm, hcall.2.2.2.symm⟩
  · intro cc p expr c p' b eb' c' hcall
    unfold program_compile at hcall
    cases hdec : utf8DecodeStr expr with
    | none =>
      rw [hdec] at hcall
      dsimp only [copy_error_to_buffer] at hcall
      simp only [Option.map_some', Option.some.injEq, Prod.mk.injEq] at hcall
      exact ⟨hcall.2.2.1.symm, hcall.2.2.2.symm⟩
    | some s =>
      rw [hdec] at hcall
      dsimp only at hcall
      rcases hcomp : Program.compile cc p s with ⟨p0, r0⟩
      rw [hcomp] at hcall
      cases r0 with
      | ok u =>
        cases u
        simp only [Option.some.injEq, Prod.mk.injEq] at hcall
        exact ⟨hcall.2.2.1.symm, hcall.2.2.2.symm⟩
      | error e =>
        dsimp only [copy_error_to_buffer] at hcall
        simp only [Option.map_some', Option.some.injEq, Prod.mk.injEq] at hcall
        exact ⟨hcall.2.2.1.symm, hcall.2.2.2.symm⟩
  · intro cc expr vl c vl' b eb' c' hcall
    unfold program_validate at hcall
    cases hdec : utf8DecodeStr expr with
    | none =>
      rw [hdec] at hcall
      dsimp only [copy_error_to_buffer] at hcall
      simp only [Option.map_some', Option.some.injEq, Prod.mk.injEq] at hcall
      exact ⟨hcall.2.2.1.symm, hcall.2.2.2.symm⟩
    | some s =>
      rw [hdec] at hcall
      dsimp only at hcall
      cases hcomp : cc s with
      | ok prog =>
        rw [hcomp] at hcall
        simp only [Option.some.injEq, Prod.mk.injEq] at hcall
        exact ⟨hcall.2.2.1.symm, hcall.2.2.2.symm⟩
      | error e =>
        rw [hcomp] at hcall
        dsimp only [copy_error_to_buffer] at hcall
        simp only [Option.map_some', Option.some.injEq, Prod.mk.injEq] at hcall
        exact ⟨hcall.2.2.1.symm, hcall.2.2.2.symm⟩

/-- Witness for `c10_error_buffer_frame`: a successful `context_add_variable`
leaves the supplied buffer and capacity exactly as they were. -/
theorem c10_error_buffer_frame_witness :
    (some [9] : Option (List Nat)) = some [9] ∧ (1 : Nat) = 1 :=
  (@c10_error_buffer_frame Unit).1 [] [120] .null (some [9]) 1
    [("x", JValue.null)] (some [9]) 1 (by decide)
